import Mathlib

set_option autoImplicit false

namespace HumbleBlockchain

/- Shallow embedding of the humble_blockchain repository.
   Chain and Block follow src/chain/src/chain.rs and src/chain/src/block/block.rs.
   SHA-256 is provided by the external sha2 crate, so the embedding is
   parameterized by the hex-digest function `H : String → String`; the real
   SHA-256 hex digest always has 64 characters, which theorems take as a
   hypothesis where it matters.  Rust `usize`/`u64` values are modelled as
   `Nat`; the `u8` difficulty counter keeps its wrap-around `% 256`. -/

/-- The interval (in seconds) used by difficulty adjustment (`INTERVAL` in chain.rs). -/
def INTERVAL : Nat := 60

/-- Rust's `"0".repeat(n)` (also `Hash::default()` when `n = 64`). -/
def zeros (n : Nat) : String := String.mk (List.replicate n '0')

/-- Rust's `str::starts_with` for a plain string pattern. -/
def starts_with (s p : String) : Bool := p.data.isPrefixOf s.data

/-- A block (struct `Block` in block.rs).  The `Hash` newtype wraps a `String`
    and dereferences to it, so hash fields are modelled as plain strings. -/
structure Block where
  index : Nat
  previous_hash : String
  hash : String
  data : String
  timestamp : Nat
  nonce : Nat
deriving DecidableEq

instance : Inhabited Block := ⟨⟨0, "", "", "", 0, 0⟩⟩

/-- A record offset produced by mining.  The `RecordOffset` type itself is not
    present under src/ (only its uses in chain.rs are); modelled from the spec:
    the per-key offset data used to recompute the index of the most recent
    record per key, exposing `get_key` and `get_offset`. -/
structure RecordOffset where
  key : String
  offset : Nat
deriving DecidableEq

/-- A mining digest (struct `MiningDigest`).  chain.rs constructs it with a
    record-offset list, a block and a nonce and reads all three back. -/
structure MiningDigest where
  record_offsets : List RecordOffset
  block : Block
  nonce : Nat
deriving DecidableEq

/-- Enum `BlockCheckError` in chain.rs.  The Rust variant `InvalidPrefix`
    carries the current difficulty; it is named `InvalidPrefixError` here. -/
inductive BlockCheckError where
  | WrongIndex (expected got : Nat)
  | InvalidPrefixError (difficulty : Nat)
  | NotInChain (expected got : String)
  | WrongHash (expected got : String)
deriving DecidableEq

/-- Struct `Chain` in chain.rs.  The random `id : Uuid` field plays no role in
    any operation and is omitted; the `HashMap<String, usize>` index is
    modelled as an association list. -/
structure Chain where
  index : List (String × Nat)
  last_block_offset : Nat
  blocks : List Block
  len : Nat
  difficulty : Nat
deriving DecidableEq

/-- `Chain::get_last_block` (`self.blocks.iter().last().unwrap().clone()`).
    The `unwrap` panics on an empty chain; the model returns the default block
    there, and theorems about non-genesis appends assume `blocks ≠ []`, which
    `Chain::new` establishes. -/
def Chain.get_last_block (c : Chain) : Block := c.blocks.getLastD default

/-- `Chain::check_block_data`, with the SHA-256 hex digest abstracted as `H`.
    Checks run in source order: wrong index, difficulty prefix, previous-hash
    linkage, hash equality. -/
def Chain.check_block_data (H : String → String) (c : Chain) (data : String)
    (previous_hash block_hash : String) (block_index : Nat) :
    Option BlockCheckError :=
  let digest_str := H data
  if block_index ≠ c.len + 1 then
    some (.WrongIndex (c.len + 1) block_index)
  else if ¬ starts_with digest_str (zeros c.difficulty) then
    some (.InvalidPrefixError c.difficulty)
  else
    let last_chain_hash := c.get_last_block.hash
    if previous_hash ≠ last_chain_hash then
      some (.NotInChain previous_hash last_chain_hash)
    else if digest_str ≠ block_hash then
      some (.WrongHash digest_str block_hash)
    else
      none

/-- `Chain::check_difficulty`: increments `difficulty` (a Rust `u8`, hence the
    `% 256`) when the block arrived less than `INTERVAL` seconds after the
    current tail block. -/
def Chain.check_difficulty (c : Chain) (block_timestamp : Nat) : Chain :=
  if block_timestamp < c.get_last_block.timestamp + INTERVAL then
    { c with difficulty := (c.difficulty + 1) % 256 }
  else c

/-- `Chain::update_index`: keeps only the keys of the old index that were
    modified, remapping them to their new offsets (the `find().unwrap()` always
    succeeds because the key survived the filter; the model's `getD 0` default
    is unreachable). -/
def Chain.update_index (c : Chain) (offsets : List RecordOffset) : Chain :=
  let modified_keys : List String := offsets.map RecordOffset.key
  let new_index : List (String × Nat) :=
    (c.index.filter (fun kv => modified_keys.contains kv.1)).map
      (fun kv =>
        (kv.1,
         ((offsets.find? (fun e => e.key = kv.1)).map RecordOffset.offset).getD 0
           + c.last_block_offset))
  { c with index := new_index }

/-- `Chain::add_block`.  Rust mutates `&mut self` and returns
    `Result<(), BlockCheckError>`; the embedding threads the state explicitly
    and returns the chain after the call together with the error, so that
    failure leaving the chain untouched is an actual theorem.  For a non-zero
    block index the digest is recomputed from the current tail block restated
    with the submitted nonce; a zero index (genesis) bypasses every check. -/
def Chain.add_block (H : String → String) (c : Chain) (mining_digest : MiningDigest) :
    Chain × Option BlockCheckError :=
  let block := mining_digest.block
  let nonce := mining_digest.nonce
  if block.index ≠ 0 then
    let last_block := c.get_last_block
    let str_block : String :=
      last_block.hash ++ last_block.previous_hash ++ last_block.data
        ++ toString last_block.timestamp ++ toString last_block.index ++ toString nonce
    match c.check_block_data H str_block block.previous_hash block.hash block.index with
    | some e => (c, some e)
    | none =>
        let c1 := c.check_difficulty block.timestamp
        let c2 := { c1 with blocks := c1.blocks ++ [block], len := c1.len + 1 }
        (c2.update_index mining_digest.record_offsets, none)
  else
    let c2 := { c with blocks := c.blocks ++ [block], len := c.len + 1 }
    (c2.update_index mining_digest.record_offsets, none)

/-- `Chain::new`: a fresh chain whose single genesis block (index 0, all-zero
    hashes, empty data) is appended through `add_block`, skipping every check.
    `Block::new` stamps the genesis block with the system clock, abstracted as
    `now`. -/
def Chain.new (H : String → String) (now : Nat) : Chain :=
  let genesis_block : Block :=
    { index := 0, previous_hash := zeros 64, hash := zeros 64, data := ""
      timestamp := now, nonce := 0 }
  let chain : Chain :=
    { index := [], last_block_offset := 0, blocks := [], len := 0, difficulty := 1 }
  (chain.add_block H (MiningDigest.mk [] genesis_block 0)).1

/-- Chain comparison from `impl Ord for Chain` in chain.rs: chains are totally
    ordered by `len` alone (`self.len.cmp(&other.len())`), so Rust's `a > b`
    is exactly a length comparison. -/
def chain_gt (a b : Chain) : Bool := decide (b.len < a.len)

/-- The gossip actor (struct `Node` in src/network/src/node/node.rs).  Only the
    owned chain is relevant to `check_remote_chain_and_broadcast`; identity,
    role, the neighbour table and the optional miner are omitted. -/
structure Node where
  chain : Chain
deriving DecidableEq

/-- `Node::check_remote_chain_and_broadcast`: when the received chain compares
    greater than the local one (`chain > self.chain`, i.e. a length
    comparison), replace the local chain and send the updated chain on the
    broadcast channel.  The second component is the message sent, if any. -/
def Node.check_remote_chain_and_broadcast (n : Node) (chain : Chain) :
    Node × Option Chain :=
  if chain_gt chain n.chain then ({ n with chain := chain }, some chain)
  else (n, none)

namespace Search

/- Model for `Chain::search` (chain.rs lines 296-313).  `Block::get_records`
   decodes the `Record` entries embedded in the block's data string; the
   string-decoding layer is orthogonal to the scan order that the claim is
   about, so a block is taken here together with its decoded record list. -/

/-- The projection of a decoded `Record` that `Chain::search` consumes:
    `get_key`, `get_value` and `tombstone`. -/
structure Rec where
  key : String
  value : List Nat
  tombstone : Bool
deriving DecidableEq

/-- A block as `Chain::search` sees it: the result of `get_records()` on the
    block's data. -/
structure RBlock where
  records : List Rec
deriving DecidableEq

/-- `Chain::search`: iterate `for block in &self.blocks` — that is, in storage
    order, oldest block first — and inside each block take the last matching
    record (`.iter().rev().find(..)`); on the first block that contains the
    key, return `None` for a tombstone and the value otherwise. -/
def search (blocks : List RBlock) (key : String) : Option (List Nat) :=
  match blocks with
  | [] => none
  | b :: bs =>
    match b.records.reverse.find? (fun r => r.key = key) with
    | some record_match =>
        if record_match.tombstone then none else some record_match.value
    | none => search bs key

/-- Modelled from the spec: the behaviour the spec sentence ascribes to
    `search` — scan blocks newest-first and return the most recent
    non-tombstoned value for the key, `none` when the most recent record for
    the key is a tombstone or the key is absent. -/
def search_spec (blocks : List RBlock) (key : String) : Option (List Nat) :=
  match (blocks.flatMap Search.RBlock.records).reverse.find? (fun r => r.key = key) with
  | some record_match =>
      if record_match.tombstone then none else some record_match.value
  | none => none

end Search

namespace Own

/- Model for `Wallet::check_transaction_tokens` (src/wallet/src/wallet.rs lines
   251-281).  The function reads `transaction.coins : Vec<String>`,
   `t.coins[0]`, `t.receiver_pk` and `transaction.get_sender_pk()`; public keys
   are byte vectors.  Blocks reach it as `&[Box<dyn BlockChainBlock>]` and are
   only consumed through `get_transactions()`, so a block is taken here
   together with its decoded transaction list. -/

/-- The projection of a `Transaction` that the ownership check consumes. -/
structure Tx where
  sender_pk : List Nat
  receiver_pk : List Nat
  coins : List String
deriving DecidableEq

/-- A block as the ownership check sees it: the result of
    `get_transactions()`. -/
structure TBlock where
  transactions : List Tx
deriving DecidableEq

/-- Enum `TransactionErr` in wallet.rs (source spelling kept). -/
inductive TransactionErr where
  | InsuficientBalance
  | ZeroAmount
  | InvalidToken
  | IncompleteChain (token : String)
deriving DecidableEq

/-- All transactions of a block list, in block order. -/
def allTx (blocks : List TBlock) : List Tx := blocks.flatMap TBlock.transactions

/-- The inner loop over one block's transactions: find the first transaction
    whose FIRST coin (`t.coins[0]`) equals the token.  Indexing `coins[0]`
    panics on an empty coin vector, which the model surfaces as `none`;
    `some none` means no match in this block, `some (some t)` the first
    match. -/
def findSpend (token : String) : List Tx → Option (Option Tx)
  | [] => some none
  | t :: ts =>
    match t.coins.head? with
    | none => none
    | some c0 => if c0 = token then some (some t) else findSpend token ts

/-- The outer loop over the blocks for one spent token.  The block list comes
    in already reversed (`blocks.iter().rev()`, newest first); after a match
    whose recorded receiver equals the spender, the scan continues into the
    older blocks with `coin_found` set (the `break` only leaves the inner
    transaction loop). -/
def checkToken (token : String) (sender : List Nat) :
    List TBlock → Bool → Option (Except TransactionErr Unit)
  | [], coin_found =>
      some (if coin_found then .ok () else .error .InvalidToken)
  | b :: bs, coin_found =>
    match findSpend token b.transactions with
    | none => none
    | some none => checkToken token sender bs coin_found
    | some (some t) =>
        if t.receiver_pk ≠ sender then some (.error (.IncompleteChain token))
        else checkToken token sender bs true

/-- The loop over the tokens the transaction spends: the first failing token
    decides the error. -/
def checkTokensLoop (sender : List Nat) (blocksRev : List TBlock) :
    List String → Option (Except TransactionErr Unit)
  | [] => some (.ok ())
  | token :: tokens =>
    match checkToken token sender blocksRev false with
    | none => none
    | some (.error e) => some (.error e)
    | some (.ok _) => checkTokensLoop sender blocksRev tokens

/-- `Wallet::check_transaction_tokens`.  `none` models the `coins[0]` panic on
    a stored transaction with an empty coin vector. -/
def check_transaction_tokens (transaction : Tx) (blocks : List TBlock) :
    Option (Except TransactionErr Unit) :=
  checkTokensLoop transaction.sender_pk blocks.reverse transaction.coins

end Own

namespace HashB

/- Model for the `Hash` constructions of src/chain/src/block/block.rs and
   `Token` of src/wallet/src/token.rs, at the byte level: a Rust `String` is
   represented by its UTF-8 byte sequence (a `List Nat` of values < 256), so
   that `String::len` is the list length and `str::is_ascii` is a bound on
   every byte. -/

/-- `str::is_ascii`: every byte is at most 0x7F. -/
def isAscii (bytes : List Nat) : Bool := bytes.all (fun b => b ≤ 127)

/-- A UTF-8 continuation byte (0x80..0xBF). -/
def isCont (b : Nat) : Bool := 0x80 ≤ b && b ≤ 0xBF

/-- One step of Rust's `str::from_utf8` validation (RFC 3629: no overlong
    forms, no surrogates, at most U+10FFFF): for a non-ASCII leading byte `b`,
    consume the continuation bytes of one character and return the remaining
    input, or `none` when the sequence is malformed. -/
def utf8Tail (b : Nat) (rest : List Nat) : Option (List Nat) :=
  if 0xC2 ≤ b && b ≤ 0xDF then
    match rest with
    | c1 :: r => if isCont c1 then some r else none
    | [] => none
  else if b = 0xE0 then
    match rest with
    | c1 :: c2 :: r => if (0xA0 ≤ c1 && c1 ≤ 0xBF) && isCont c2 then some r else none
    | _ => none
  else if (0xE1 ≤ b && b ≤ 0xEC) || b = 0xEE || b = 0xEF then
    match rest with
    | c1 :: c2 :: r => if isCont c1 && isCont c2 then some r else none
    | _ => none
  else if b = 0xED then
    match rest with
    | c1 :: c2 :: r => if (0x80 ≤ c1 && c1 ≤ 0x9F) && isCont c2 then some r else none
    | _ => none
  else if b = 0xF0 then
    match rest with
    | c1 :: c2 :: c3 :: r =>
        if (0x90 ≤ c1 && c1 ≤ 0xBF) && isCont c2 && isCont c3 then some r else none
    | _ => none
  else if 0xF1 ≤ b && b ≤ 0xF3 then
    match rest with
    | c1 :: c2 :: c3 :: r =>
        if isCont c1 && isCont c2 && isCont c3 then some r else none
    | _ => none
  else if b = 0xF4 then
    match rest with
    | c1 :: c2 :: c3 :: r =>
        if (0x80 ≤ c1 && c1 ≤ 0x8F) && isCont c2 && isCont c3 then some r else none
    | _ => none
  else none

/-- The validation loop, driven by a fuel counter for structural recursion;
    every step consumes at least one byte, so `fuel = length` always
    suffices. -/
def isValidUtf8Fuel : Nat → List Nat → Bool
  | _, [] => true
  | 0, _ :: _ => false
  | fuel + 1, b :: rest =>
    if b ≤ 0x7F then isValidUtf8Fuel fuel rest
    else
      match utf8Tail b rest with
      | some r => isValidUtf8Fuel fuel r
      | none => false

/-- Rust's `str::from_utf8` validation of a whole byte sequence. -/
def isValidUtf8 (bytes : List Nat) : Bool := isValidUtf8Fuel bytes.length bytes

/-- `HASH_SIZE` in block.rs. -/
def HASH_SIZE : Nat := 64

/-- `TOKEN_SIZE` in token.rs. -/
def TOKEN_SIZE : Nat := 64

/-- Struct `Hash(String)`, as its UTF-8 bytes. -/
structure Hash where
  bytes : List Nat
deriving DecidableEq

/-- Struct `Token([u8; TOKEN_SIZE])`.  `Token::new` accepts any byte array;
    theorems carry `bytes.length = TOKEN_SIZE` where the fixed size matters. -/
structure Token where
  bytes : List Nat
deriving DecidableEq

/-- Enum `HashError` (source spelling kept). -/
inductive HashError where
  | InvalidHashStringhError
  | WrongSizeHashError
deriving DecidableEq

/-- `impl TryFrom<String> for Hash`: the byte length must be exactly
    `HASH_SIZE`, then the content must be ASCII. -/
def hashTryFromString (value : List Nat) : Except HashError Hash :=
  if value.length ≠ HASH_SIZE then .error .WrongSizeHashError
  else if ¬ isAscii value then .error .InvalidHashStringhError
  else .ok ⟨value⟩

/-- `impl Default for Hash`: `"0".repeat(HASH_SIZE)` (byte 48 repeated). -/
def hashDefault : Hash := ⟨List.replicate HASH_SIZE 48⟩

/-- `impl From<Token> for Hash`:
    `Hash(str::from_utf8((*value).as_slice()).unwrap().to_owned())`.
    `from_utf8` keeps the bytes and only validates them; the `unwrap` panics on
    invalid UTF-8, which the model surfaces as `none`. -/
def tokenToHash (value : Token) : Option Hash :=
  if isValidUtf8 value.bytes then some ⟨value.bytes⟩ else none

end HashB

namespace Dec

/- Model for the entry decoders `impl TryFrom<String> for Record`
   (src/wallet/src/transaction/record.rs) and `impl TryFrom<String> for
   Transaction` (src/wallet/src/transaction/transaction.rs).  Strings are Lean
   strings; the base64 engine and the Uuid parser come from external crates and
   are abstracted as parameters (`b64`, `uuidP`), both returning `none` on a
   malformed input.  Field indexing `fields[i]` panics when out of bounds; the
   model surfaces a panic as an outer `none`. -/

/-- `N_RECORD_FIELDS` in record.rs. -/
def N_RECORD_FIELDS : Nat := 7

/-- `N_TRANSACTION_FIELDS` in transaction.rs. -/
def N_TRANSACTION_FIELDS : Nat := 7

/-- Accumulator loop for `splitChar`. -/
def splitCharGo (sep : Char) : List Char → List Char → List String
  | [], acc => [String.mk acc.reverse]
  | c :: rest, acc =>
    if c = sep then String.mk acc.reverse :: splitCharGo sep rest []
    else splitCharGo sep rest (c :: acc)

/-- Rust's `str::split` for a one-character separator: splits at every
    occurrence, keeps empty pieces, and yields `[""]` on the empty string. -/
def splitChar (sep : Char) (s : String) : List String := splitCharGo sep s.data []

/-- Enum `BlockEntryId` in block_entry_common.rs. -/
inductive BlockEntryId where
  | Transaction
  | Record
deriving DecidableEq

/-- `impl TryFrom<u8> for BlockEntryId`: 0 is a transaction, 1 a record. -/
def blockEntryIdFromU8 (value : Nat) : Option BlockEntryId :=
  if value = 0 then some .Transaction
  else if value = 1 then some .Record
  else none

/-- Enum `TokenConversionError` in token.rs. -/
inductive TokenConversionError where
  | InvalidStringEncoding
  | WrongSizedToken (len : Nat)
deriving DecidableEq

/-- Enum `EntryDecodeError` in block_entry_common.rs (payloads of the external
    error types are dropped). -/
inductive EntryDecodeError where
  | Base64Error
  | ParseError
  | InvalidTokenError (e : TokenConversionError)
  | InvalidIdError
  | WrongTypeError
  | InvalidTypeError
  | WrongFieldCountError
deriving DecidableEq

/-- Digit-string to number, used by the Rust integer `FromStr` parsers. -/
def parseDigits (cs : List Char) : Option Nat :=
  if cs.isEmpty then none
  else if cs.all Char.isDigit then
    some (cs.foldl (fun n c => n * 10 + (c.toNat - 48)) 0)
  else none

/-- Rust `u8::from_str`: an optional leading `+`, then decimal digits, value
    at most 255. -/
def parseU8 (s : String) : Option Nat :=
  let cs := if s.data.head? = some '+' then s.data.tail else s.data
  match parseDigits cs with
  | some n => if n ≤ 255 then some n else none
  | none => none

/-- Rust `u64::from_str`: an optional leading `+`, then decimal digits, value
    below 2^64. -/
def parseU64 (s : String) : Option Nat :=
  let cs := if s.data.head? = some '+' then s.data.tail else s.data
  match parseDigits cs with
  | some n => if n < 2 ^ 64 then some n else none
  | none => none

/-- Rust `bool::from_str`: exactly `true` or `false`. -/
def parseBool (s : String) : Option Bool :=
  if s = "true" then some true
  else if s = "false" then some false
  else none

/-- `str::is_ascii` on a Lean string: every character is ASCII (for such
    strings the UTF-8 byte length equals the character count). -/
def strIsAscii (s : String) : Bool := s.data.all (fun c => c.toNat ≤ 127)

/-- `impl TryFrom<String> for Token`: ASCII first, then byte length exactly
    `TOKEN_SIZE`.  A token is kept as its (validated) string. -/
def tokenTryFromString (value : String) : Except TokenConversionError String :=
  if ¬ strIsAscii value then .error .InvalidStringEncoding
  else if value.utf8ByteSize ≠ 64 then .error (.WrongSizedToken value.utf8ByteSize)
  else .ok value

/-- The `.collect::<Result<Vec<Token>, _>>()` over the comma-separated token
    field: the first invalid token aborts the decode. -/
def collectTokens : List String → Except TokenConversionError (List String)
  | [] => .ok []
  | t :: ts =>
    match tokenTryFromString t with
    | .error e => .error e
    | .ok tok => (collectTokens ts).map (fun rest => tok :: rest)

/-- Struct `Record` as the decoder produces it (`record_id` is the parsed Uuid,
    abstracted to the external parser's output bytes). -/
structure Record where
  block_entry_type_id : BlockEntryId
  record_id : List Nat
  poster_pk : List Nat
  key : String
  value : List Nat
  tombstone : Bool
  tokens : List String
  signature : Option (List Nat)
deriving DecidableEq

/-- Struct `Transaction` as the decoder produces it. -/
structure Transaction where
  block_entry_type_id : BlockEntryId
  transaction_id : List Nat
  sender_pk : List Nat
  receiver_pk : List Nat
  timestamp : Nat
  tokens : List String
  signature : Option (List Nat)
deriving DecidableEq

/-- `impl TryFrom<String> for Record`, in source evaluation order: field
    count (`< N_RECORD_FIELDS`), identifier byte, tombstone, token list,
    signature — the signature reads `fields[7]`, which panics (outer `none`)
    when the input has exactly 7 fields — then the struct literal (uuid,
    base64 poster key, key, base64 value). -/
def recordTryFrom (b64 : String → Option (List Nat)) (uuidP : String → Option (List Nat))
    (value : String) : Option (Except EntryDecodeError Record) :=
  let fields := splitChar ';' value
  if fields.length < N_RECORD_FIELDS then some (.error .WrongFieldCountError)
  else
    match fields.get? 0 with
    | none => none
    | some f0 =>
      match parseU8 f0 with
      | none => some (.error .InvalidTypeError)
      | some n =>
        match blockEntryIdFromU8 n with
        | none => some (.error .InvalidTypeError)
        | some ident =>
          if ident ≠ .Record then some (.error .WrongTypeError)
          else
            match fields.get? 5 with
            | none => none
            | some f5 =>
              match parseBool f5 with
              | none => some (.error .InvalidTypeError)
              | some tombstone =>
                match fields.get? 6 with
                | none => none
                | some f6 =>
                  match collectTokens (splitChar ',' f6) with
                  | .error e => some (.error (.InvalidTokenError e))
                  | .ok tokens =>
                    match fields.get? 7 with
                    | none => none
                    | some f7 =>
                      let signature := if f7 = "" then none else b64 f7
                      match fields.get? 1 with
                      | none => none
                      | some f1 =>
                        match uuidP f1 with
                        | none => some (.error .InvalidIdError)
                        | some rid =>
                          match fields.get? 2 with
                          | none => none
                          | some f2 =>
                            match b64 f2 with
                            | none => some (.error .Base64Error)
                            | some poster =>
                              match fields.get? 3 with
                              | none => none
                              | some f3 =>
                                match fields.get? 4 with
                                | none => none
                                | some f4 =>
                                  match b64 f4 with
                                  | none => some (.error .Base64Error)
                                  | some v =>
                                    some (.ok
                                      { block_entry_type_id := ident
                                        record_id := rid
                                        poster_pk := poster
                                        key := f3
                                        value := v
                                        tombstone := tombstone
                                        tokens := tokens
                                        signature := signature })

/-- `impl TryFrom<String> for Transaction`, in source evaluation order: field
    count (`< N_TRANSACTION_FIELDS`), identifier byte, signature
    (`fields[6]`, base64 failures become `None`, not errors), token list
    (`fields[5]`), then the struct literal (uuid, base64 sender and receiver
    keys, timestamp). -/
def transactionTryFrom (b64 : String → Option (List Nat))
    (uuidP : String → Option (List Nat)) (string : String) :
    Option (Except EntryDecodeError Transaction) :=
  let fields := splitChar ';' string
  if fields.length < N_TRANSACTION_FIELDS then some (.error .WrongFieldCountError)
  else
    match fields.get? 0 with
    | none => none
    | some f0 =>
      match parseU8 f0 with
      | none => some (.error .InvalidTypeError)
      | some n =>
        match blockEntryIdFromU8 n with
        | none => some (.error .InvalidTypeError)
        | some ident =>
          if ident ≠ .Transaction then some (.error .WrongTypeError)
          else
            match fields.get? 6 with
            | none => none
            | some f6 =>
              let signature := if f6 = "" then none else b64 f6
              match fields.get? 5 with
              | none => none
              | some f5 =>
                match collectTokens (splitChar ',' f5) with
                | .error e => some (.error (.InvalidTokenError e))
                | .ok tokens =>
                  match fields.get? 1 with
                  | none => none
                  | some f1 =>
                    match uuidP f1 with
                    | none => some (.error .InvalidIdError)
                    | some tid =>
                      match fields.get? 2 with
                      | none => none
                      | some f2 =>
                        match b64 f2 with
                        | none => some (.error .Base64Error)
                        | some sender =>
                          match fields.get? 3 with
                          | none => none
                          | some f3 =>
                            match b64 f3 with
                            | none => some (.error .Base64Error)
                            | some receiver =>
                              match fields.get? 4 with
                              | none => none
                              | some f4 =>
                                match parseU64 f4 with
                                | none => some (.error .ParseError)
                                | some ts =>
                                  some (.ok
                                    { block_entry_type_id := ident
                                      transaction_id := tid
                                      sender_pk := sender
                                      receiver_pk := receiver
                                      timestamp := ts
                                      tokens := tokens
                                      signature := signature })

end Dec

namespace Sig

/- Model for `Wallet::sign` and `Wallet::verify` (src/wallet/src/wallet.rs
   lines 121-155).  The ECDSA P-256 primitives come from the external ring
   crate; modelled from the spec: an idealized deterministic signature scheme
   in which a signature determines exactly the signing key's public part and
   the signed payload, and verification succeeds exactly on that public key
   and payload. -/

/-- The keypair held by a wallet; only the public part is observable. -/
structure KeyPair where
  public_key : List Nat
deriving DecidableEq

/-- Idealized `EcdsaKeyPair::sign`: the signature bytes encode the public key
    and the message injectively. -/
def sign_bytes (kp : KeyPair) (msg : List Nat) : List Nat :=
  kp.public_key.length :: (kp.public_key ++ msg)

/-- Idealized `UnparsedPublicKey::verify`: succeeds exactly when the signature
    was produced over `msg` by the keypair whose public key is `key`. -/
def verify_bytes (key msg sig : List Nat) : Bool :=
  sig = key.length :: (key ++ msg)

/-- A signable entry as the `Sign` trait exposes it: a signing payload
    (`get_payload`) and an optional signature slot. -/
structure Entry where
  payload : List Nat
  signature : Option (List Nat)
deriving DecidableEq

/-- Enum `SignatureError` in wallet.rs (the `NoSignatureError` payload, the
    entry's display string, is dropped). -/
inductive SignatureError where
  | VerificationError (sig : List Nat)
  | NoSignatureError
deriving DecidableEq

/-- Struct `Wallet`, reduced to its keypair. -/
structure Wallet where
  key_pair : KeyPair
deriving DecidableEq

/-- `Wallet::sign`: set the entry's signature to a signature over its
    payload. -/
def Wallet.sign (w : Wallet) (entry : Entry) : Entry :=
  { entry with signature := some (sign_bytes w.key_pair entry.payload) }

/-- `Wallet::verify`: verify against the supplied public key, or the wallet's
    own when none is given; a missing signature is an error of its own. -/
def Wallet.verify (w : Wallet) (entry : Entry) (pub_key : Option (List Nat)) :
    Except SignatureError Unit :=
  let key := match pub_key with
    | some k => k
    | none => w.key_pair.public_key
  match entry.signature with
  | some signature =>
      if verify_bytes key entry.payload signature then .ok ()
      else .error (.VerificationError signature)
  | none => .error .NoSignatureError

end Sig

/- Concrete fixtures used by witnesses and counterexamples. -/

/-- A stand-in hex-digest function whose output always has 64 characters
    (like a real SHA-256 hex digest) and satisfies any difficulty's
    leading-zeros test. -/
def H064 : String → String := fun _ => zeros 64

/-- A freshly created chain: one genesis block, `len = 1`, `difficulty = 1`. -/
def chain1 : Chain := Chain.new H064 0

/-- A digest that passes every check against `chain1` under `H064`
    (index 2 = len + 1, matching hashes, timestamp past the interval). -/
def goodDigest : MiningDigest := ⟨[], ⟨2, zeros 64, zeros 64, "", 100, 5⟩, 5⟩

/-- The chain after successfully appending `goodDigest` to `chain1`. -/
def chain2 : Chain := (Chain.add_block H064 chain1 goodDigest).1

/-- A digest whose block index 5 matches nothing. -/
def badDigest5 : MiningDigest := ⟨[], ⟨5, zeros 64, zeros 64, "", 100, 5⟩, 5⟩

/-- A digest whose block index equals `chain1`'s current length (1). -/
def lenOneDigest : MiningDigest := ⟨[], ⟨1, zeros 64, zeros 64, "", 100, 5⟩, 5⟩

/-- Blocks for the search counterexample: oldest block empty (genesis), then a
    block writing `k ↦ [1]`, then a newer block writing `k ↦ [2]`. -/
def searchBlocks : List Search.RBlock :=
  [⟨[]⟩, ⟨[⟨"k", [1], false⟩]⟩, ⟨[⟨"k", [2], false⟩]⟩]

/-- Wallet public keys used by the ownership fixtures. -/
def pkA : List Nat := [1]

/-- Wallet public key fixture. -/
def pkB : List Nat := [2]

/-- Wallet public key fixture. -/
def pkC : List Nat := [3]

/-- The single recorded spend of token `tok`, from `pkA` to `pkB`. -/
def t0fix : Own.Tx := ⟨pkA, pkB, ["tok"]⟩

/-- A chain history containing exactly the one spend `t0fix`. -/
def ownBlocks : List Own.TBlock := [⟨[t0fix]⟩]

/-- A chain history whose only transaction carries token `late` at position 1
    (not position 0), sent to `pkB`. -/
def laterBlocks : List Own.TBlock := [⟨[⟨pkA, pkB, ["first", "late"]⟩]⟩]

/-- Sixty-four bytes of valid, non-ASCII UTF-8 (`é` repeated 32 times). -/
def badTokenBytes : List Nat := (List.replicate 32 [195, 169]).flatten

/-- A `Record` encoding with exactly 7 `;`-separated fields whose earlier
    fields all parse, so the decoder reaches the out-of-bounds `fields[7]`. -/
def recordPanicInput : String := "1;x;y;k;v;true;" ++ String.mk (List.replicate 64 'a')

/- Theorems. -/

theorem update_index_len (c : Chain) (offs : List RecordOffset) :
    (Chain.update_index c offs).len = c.len := rfl

theorem update_index_difficulty (c : Chain) (offs : List RecordOffset) :
    (Chain.update_index c offs).difficulty = c.difficulty := rfl

theorem check_difficulty_len (c : Chain) (ts : Nat) :
    (Chain.check_difficulty c ts).len = c.len := by
  unfold Chain.check_difficulty; split <;> rfl

theorem check_difficulty_difficulty (c : Chain) (ts : Nat) :
    (Chain.check_difficulty c ts).difficulty =
      if ts < c.get_last_block.timestamp + INTERVAL then (c.difficulty + 1) % 256
      else c.difficulty := by
  unfold Chain.check_difficulty; split <;> rfl

theorem add_block_cases (H : String → String) (c : Chain) (d : MiningDigest) :
    (∃ e, Chain.add_block H c d = (c, some e)) ∨ (Chain.add_block H c d).2 = none := by
  simp only [Chain.add_block]
  split
  · split
    · exact Or.inl ⟨_, rfl⟩
    · exact Or.inr rfl
  · exact Or.inr rfl

theorem add_block_snd_eq (H : String → String) (c : Chain) (d : MiningDigest)
    (hi : d.block.index ≠ 0) :
    (Chain.add_block H c d).2 =
      Chain.check_block_data H c
        (c.get_last_block.hash ++ c.get_last_block.previous_hash
          ++ c.get_last_block.data ++ toString c.get_last_block.timestamp
          ++ toString c.get_last_block.index ++ toString d.nonce)
        d.block.previous_hash d.block.hash d.block.index := by
  simp only [Chain.add_block]
  rw [if_pos hi]
  cases hc : Chain.check_block_data H c
      (c.get_last_block.hash ++ c.get_last_block.previous_hash
        ++ c.get_last_block.data ++ toString c.get_last_block.timestamp
        ++ toString c.get_last_block.index ++ toString d.nonce)
      d.block.previous_hash d.block.hash d.block.index with
  | some e => simp [hc]
  | none => simp [hc]

theorem add_block_fst_success (H : String → String) (c : Chain) (d : MiningDigest)
    (hi : d.block.index ≠ 0) (h : (Chain.add_block H c d).2 = none) :
    (Chain.add_block H c d).1 =
      Chain.update_index
        { c.check_difficulty d.block.timestamp with
            blocks := (c.check_difficulty d.block.timestamp).blocks ++ [d.block]
            len := (c.check_difficulty d.block.timestamp).len + 1 }
        d.record_offsets := by
  simp only [Chain.add_block] at h ⊢
  rw [if_pos hi] at h ⊢
  cases hc : Chain.check_block_data H c
      (c.get_last_block.hash ++ c.get_last_block.previous_hash
        ++ c.get_last_block.data ++ toString c.get_last_block.timestamp
        ++ toString c.get_last_block.index ++ toString d.nonce)
      d.block.previous_hash d.block.hash d.block.index with
  | some e => simp [hc] at h
  | none => simp [hc]

theorem check_block_data_none_starts (H : String → String) (c : Chain)
    (data previous_hash block_hash : String) (block_index : Nat)
    (h : Chain.check_block_data H c data previous_hash block_hash block_index = none) :
    starts_with (H data) (zeros c.difficulty) = true := by
  simp only [Chain.check_block_data] at h
  split_ifs at h with h1 h2 h3 h4
  simp_all

theorem zeros_data (n : Nat) : (zeros n).data = List.replicate n '0' := rfl

theorem starts_with_length_le (s p : String) (h : starts_with s p = true) :
    p.data.length ≤ s.data.length :=
  (List.isPrefixOf_iff_prefix.mp h).length_le

/-- C3: whenever `Chain::add_block` returns a `BlockCheckError`, the chain
    after the call is exactly the chain before it — blocks, `len`,
    `difficulty` and the record index included. -/
theorem add_block_error_leaves_chain_unchanged (H : String → String) (c : Chain)
    (d : MiningDigest) (e : BlockCheckError)
    (h : (Chain.add_block H c d).2 = some e) :
    (Chain.add_block H c d).1 = c := by
  rcases add_block_cases H c d with ⟨e2, heq⟩ | hnone
  · rw [heq]
  · rw [hnone] at h; exact absurd h (by simp)

theorem add_block_error_leaves_chain_unchanged_witness :
    (Chain.add_block H064 chain1 badDigest5).1 = chain1 :=
  add_block_error_leaves_chain_unchanged H064 chain1 badDigest5
    (.WrongIndex 2 5) (by decide)

/-- C2 (amended): for a non-genesis submission, `Chain::add_block` fails with
    the wrong-index error exactly when the block's index differs from the
    chain's current length PLUS ONE, and the error then reports
    `expected = len + 1` and `got = block.index`. -/
theorem add_block_wrong_index_iff (H : String → String) (c : Chain)
    (d : MiningDigest) (h0 : d.block.index ≠ 0) :
    ((Chain.add_block H c d).2
        = some (.WrongIndex (c.len + 1) d.block.index)
      ↔ d.block.index ≠ c.len + 1)
    ∧ ∀ e g, (Chain.add_block H c d).2 = some (.WrongIndex e g) →
        e = c.len + 1 ∧ g = d.block.index := by
  rw [add_block_snd_eq H c d h0]
  simp only [Chain.check_block_data]
  constructor
  · constructor
    · intro hsome
      by_contra hbi
      rw [if_neg (not_not_intro hbi)] at hsome
      split_ifs at hsome <;> simp_all
    · intro hne
      rw [if_pos hne]
  · intro e g hsome
    by_cases hbi : d.block.index ≠ c.len + 1
    · rw [if_pos hbi] at hsome
      simp only [Option.some.injEq, BlockCheckError.WrongIndex.injEq] at hsome
      exact ⟨hsome.1.symm, hsome.2.symm⟩
    · rw [if_neg hbi] at hsome
      split_ifs at hsome <;> simp_all

theorem add_block_wrong_index_iff_witness :
    (Chain.add_block H064 chain1 badDigest5).2 = some (.WrongIndex 2 5) :=
  (add_block_wrong_index_iff H064 chain1 badDigest5 (by decide)).1.mpr (by decide)

/-- C2 counterexample to the claim as stated: `chain1` has length 1 and
    `lenOneDigest`'s block has index 1 — equal to the current length — yet
    `add_block` rejects it with a wrong-index error, and that error reports
    `expected = 2`, not the current length. -/
theorem add_block_wrong_index_counterexample :
    chain1.len = 1 ∧ lenOneDigest.block.index = chain1.len ∧
    (Chain.add_block H064 chain1 lenOneDigest).2 = some (.WrongIndex 2 1) := by
  refine ⟨by decide, by decide, by decide⟩

/-- C4: every successful `Chain::add_block` call increases `len` by exactly 1
    and never decreases `difficulty`; for a non-genesis block the difficulty
    increases by exactly one when the block's timestamp is less than the
    current tail block's timestamp plus the 60-second `INTERVAL`, and is
    unchanged otherwise.  The hypothesis on `H` records that a SHA-256 hex
    digest has 64 characters; `blocks ≠ []` keeps the model on the domain
    where Rust's `get_last_block` does not panic. -/
theorem add_block_monotone (H : String → String) (hH : ∀ s, (H s).length = 64)
    (c : Chain) (_hne : c.blocks ≠ []) (d : MiningDigest)
    (h : (Chain.add_block H c d).2 = none) :
    (Chain.add_block H c d).1.len = c.len + 1 ∧
    c.difficulty ≤ (Chain.add_block H c d).1.difficulty ∧
    (d.block.index ≠ 0 →
      ((d.block.timestamp < c.get_last_block.timestamp + INTERVAL →
          (Chain.add_block H c d).1.difficulty = c.difficulty + 1) ∧
       (¬ d.block.timestamp < c.get_last_block.timestamp + INTERVAL →
          (Chain.add_block H c d).1.difficulty = c.difficulty))) := by
  by_cases hi : d.block.index ≠ 0
  · have hsnd := add_block_snd_eq H c d hi
    rw [h] at hsnd
    have hsw := check_block_data_none_starts H c _ _ _ _ hsnd.symm
    have hlen : c.difficulty ≤ 64 := by
      have h1 := starts_with_length_le _ _ hsw
      rw [zeros_data, List.length_replicate] at h1
      have h2 : (H (c.get_last_block.hash ++ c.get_last_block.previous_hash
          ++ c.get_last_block.data ++ toString c.get_last_block.timestamp
          ++ toString c.get_last_block.index ++ toString d.nonce)).length = 64 := hH _
      rw [String.length] at h2
      omega
    have hmod : (c.difficulty + 1) % 256 = c.difficulty + 1 :=
      Nat.mod_eq_of_lt (by omega)
    rw [add_block_fst_success H c d hi h]
    rw [update_index_len, update_index_difficulty]
    refine ⟨by rw [check_difficulty_len], ?_, ?_⟩
    · show c.difficulty ≤ ({ c.check_difficulty d.block.timestamp with
        blocks := _, len := _ } : Chain).difficulty
      rw [check_difficulty_difficulty]
      split
      · omega
      · exact le_refl _
    · intro _
      constructor <;> intro hts
      · show ({ c.check_difficulty d.block.timestamp with
          blocks := _, len := _ } : Chain).difficulty = c.difficulty + 1
        rw [check_difficulty_difficulty, if_pos hts, hmod]
      · show ({ c.check_difficulty d.block.timestamp with
          blocks := _, len := _ } : Chain).difficulty = c.difficulty
        rw [check_difficulty_difficulty, if_neg hts]
  · simp only [Chain.add_block]
    rw [if_neg hi]
    refine ⟨rfl, le_refl _, ?_⟩
    intro hcontra
    exact absurd hcontra hi

theorem add_block_monotone_witness :
    (Chain.add_block H064 chain1 goodDigest).1.len = chain1.len + 1 ∧
    chain1.difficulty ≤ (Chain.add_block H064 chain1 goodDigest).1.difficulty :=
  ⟨(add_block_monotone H064 (fun _ => rfl) chain1 (by decide) goodDigest (by decide)).1,
   (add_block_monotone H064 (fun _ => rfl) chain1 (by decide) goodDigest (by decide)).2.1⟩

/-- C6: a received chain strictly longer than the node's local chain replaces
    the local chain and is re-broadcast; otherwise nothing changes and nothing
    is sent.  The comparison is `Chain`'s `Ord` instance, which compares `len`
    only. -/
theorem node_adopts_longer_chain (n : Node) (c : Chain) :
    (n.chain.len < c.len →
      Node.check_remote_chain_and_broadcast n c = ({ n with chain := c }, some c))
    ∧ (¬ n.chain.len < c.len →
      Node.check_remote_chain_and_broadcast n c = (n, none)) := by
  unfold Node.check_remote_chain_and_broadcast chain_gt
  constructor <;> intro h
  · rw [if_pos (by simpa using h)]
  · rw [if_neg (by simpa using h)]

theorem node_adopts_longer_chain_witness :
    Node.check_remote_chain_and_broadcast ⟨chain1⟩ chain2
        = (⟨chain2⟩, some chain2) ∧
    Node.check_remote_chain_and_broadcast ⟨chain2⟩ chain1 = (⟨chain2⟩, none) :=
  ⟨(node_adopts_longer_chain ⟨chain1⟩ chain2).1 (by decide),
   (node_adopts_longer_chain ⟨chain2⟩ chain1).2 (by decide)⟩

theorem find?_reverse_isSome_of_any {p : Search.Rec → Bool} (l : List Search.Rec)
    (h : l.any p = true) : (l.reverse.find? p).isSome = true := by
  rw [List.find?_isSome]
  obtain ⟨x, hx, hpx⟩ := List.any_eq_true.mp h
  exact ⟨x, List.mem_reverse.mpr hx, hpx⟩

/-- C5 (amended): `Chain::search` scans blocks in storage order (oldest
    first); it answers from the FIRST block that contains any record for the
    key, taking the last matching record inside that block, returning `none`
    when that record is a tombstone or when no block contains the key. -/
theorem search_oldest_block_semantics (blocks : List Search.RBlock) (key : String) :
    Search.search blocks key =
      match blocks.find? (fun b => b.records.any (fun r => r.key = key)) with
      | some b =>
        (match b.records.reverse.find? (fun r => r.key = key) with
         | some r => if r.tombstone then none else some r.value
         | none => none)
      | none => none := by
  induction blocks with
  | nil => rfl
  | cons b bs ih =>
    by_cases hb : b.records.any (fun r => r.key = key) = true
    · rw [List.find?_cons, hb]
      simp only [Search.search]
      obtain ⟨r, hr⟩ :=
        Option.isSome_iff_exists.mp (find?_reverse_isSome_of_any b.records hb)
      rw [hr]
    · have hbf : (b.records.any fun r => decide (r.key = key)) = false := by
        simpa using hb
      rw [List.find?_cons, hbf]
      simp only [Search.search]
      have hnone : b.records.reverse.find? (fun r => r.key = key) = none := by
        rw [List.find?_eq_none]
        intro x hx hpx
        exact hb (List.any_eq_true.mpr ⟨x, List.mem_reverse.mp hx, hpx⟩)
      rw [hnone]
      exact ih

/-- C5 counterexample to the claim as stated: with an older block holding
    `k ↦ [1]` and a newer block holding `k ↦ [2]`, `search` returns the OLD
    value `[1]`, while a newest-first scan (the claim, `search_spec`) returns
    `[2]`. -/
theorem search_counterexample :
    Search.search searchBlocks "k" = some [1] ∧
    Search.search_spec searchBlocks "k" = some [2] ∧
    Search.search searchBlocks "k" ≠ Search.search_spec searchBlocks "k" :=
  ⟨by decide, by decide, by decide⟩


theorem mem_of_head?_eq_some {α : Type} (l : List α) (a : α) (h : l.head? = some a) :
    a ∈ l := by
  cases l with
  | nil => simp at h
  | cons x xs => simp at h; simp [h]

theorem allTx_cons (b : Own.TBlock) (bs : List Own.TBlock) :
    Own.allTx (b :: bs) = b.transactions ++ Own.allTx bs := by
  simp [Own.allTx]

theorem mem_allTx_reverse (t : Own.Tx) (bs : List Own.TBlock) :
    t ∈ Own.allTx bs.reverse ↔ t ∈ Own.allTx bs := by
  simp [Own.allTx, List.mem_flatMap]

theorem findSpend_eq_some_none (token : String) (ts : List Own.Tx)
    (h : ∀ t ∈ ts, t.coins ≠ [] ∧ t.coins.head? ≠ some token) :
    Own.findSpend token ts = some none := by
  induction ts with
  | nil => rfl
  | cons t ts ih =>
    obtain ⟨hne, hhd⟩ := h t (List.mem_cons_self t ts)
    simp only [Own.findSpend]
    cases hc : t.coins.head? with
    | none =>
      cases hcoins : t.coins with
      | nil => exact absurd hcoins hne
      | cons a l => rw [hcoins] at hc; simp at hc
    | some c0 =>
      dsimp only
      rw [if_neg (fun he => hhd (by rw [hc, he]))]
      exact ih (fun u hu => h u (List.mem_cons_of_mem _ hu))

theorem findSpend_some_some (token : String) (ts : List Own.Tx) (t : Own.Tx)
    (h : Own.findSpend token ts = some (some t)) :
    t ∈ ts ∧ t.coins.head? = some token := by
  induction ts with
  | nil => simp [Own.findSpend] at h
  | cons u ts ih =>
    simp only [Own.findSpend] at h
    cases hc : u.coins.head? with
    | none => rw [hc] at h; simp at h
    | some c0 =>
      rw [hc] at h
      dsimp only at h
      by_cases he : c0 = token
      · rw [if_pos he] at h
        simp only [Option.some.injEq] at h
        subst h
        exact ⟨List.mem_cons_self u ts, by rw [hc, he]⟩
      · rw [if_neg he] at h
        obtain ⟨hm, hh⟩ := ih h
        exact ⟨List.mem_cons_of_mem _ hm, hh⟩

theorem findSpend_some_none_forall (token : String) (ts : List Own.Tx)
    (h : Own.findSpend token ts = some none) :
    ∀ t ∈ ts, t.coins.head? ≠ some token := by
  induction ts with
  | nil => intro t ht; simp at ht
  | cons u ts ih =>
    simp only [Own.findSpend] at h
    intro t ht
    cases hc : u.coins.head? with
    | none => rw [hc] at h; simp at h
    | some c0 =>
      rw [hc] at h
      dsimp only at h
      by_cases he : c0 = token
      · rw [if_pos he] at h; simp at h
      · rw [if_neg he] at h
        rcases List.mem_cons.mp ht with rfl | hmem
        · rw [hc]; exact fun hs => he (by simpa using hs)
        · exact ih h t hmem

theorem findSpend_ne_none (token : String) (ts : List Own.Tx)
    (h : ∀ t ∈ ts, t.coins ≠ []) : Own.findSpend token ts ≠ none := by
  induction ts with
  | nil => simp [Own.findSpend]
  | cons u ts ih =>
    simp only [Own.findSpend]
    cases hcoins : u.coins with
    | nil => exact absurd hcoins (h u (List.mem_cons_self u ts))
    | cons a l =>
      dsimp only [List.head?]
      by_cases he : a = token
      · rw [if_pos he]; simp
      · rw [if_neg he]
        exact ih (fun t ht => h t (List.mem_cons_of_mem _ ht))

theorem checkToken_not_found (token : String) (s : List Nat) :
    ∀ bs : List Own.TBlock,
      (∀ t ∈ Own.allTx bs, t.coins ≠ [] ∧ t.coins.head? ≠ some token) →
      ∀ found, Own.checkToken token s bs found
        = some (if found then .ok () else .error .InvalidToken) := by
  intro bs
  induction bs with
  | nil => intro _ found; rfl
  | cons b bs ih =>
    intro h found
    have hsplit : ∀ t, (t ∈ b.transactions ∨ t ∈ Own.allTx bs) →
        t.coins ≠ [] ∧ t.coins.head? ≠ some token := by
      intro t ht
      refine h t ?_
      rw [allTx_cons, List.mem_append]
      exact ht
    simp only [Own.checkToken]
    rw [findSpend_eq_some_none token _ (fun t ht => hsplit t (Or.inl ht))]
    exact ih (fun t ht => hsplit t (Or.inr ht)) found

theorem checkToken_all_owner (token : String) (s : List Nat) :
    ∀ bs : List Own.TBlock,
      (∀ t ∈ Own.allTx bs, t.coins ≠ []) →
      (∀ t ∈ Own.allTx bs, t.coins.head? = some token → t.receiver_pk = s) →
      Own.checkToken token s bs true = some (.ok ()) := by
  intro bs
  induction bs with
  | nil => intro _ _; rfl
  | cons b bs ih =>
    intro hne hrecv
    have hneL : ∀ t ∈ b.transactions, t.coins ≠ [] := by
      intro t ht; exact hne t (by rw [allTx_cons, List.mem_append]; exact Or.inl ht)
    have hneR : ∀ t ∈ Own.allTx bs, t.coins ≠ [] := by
      intro t ht; exact hne t (by rw [allTx_cons, List.mem_append]; exact Or.inr ht)
    have hrecvR : ∀ t ∈ Own.allTx bs, t.coins.head? = some token → t.receiver_pk = s := by
      intro t ht; exact hrecv t (by rw [allTx_cons, List.mem_append]; exact Or.inr ht)
    simp only [Own.checkToken]
    cases hf : Own.findSpend token b.transactions with
    | none => exact absurd hf (findSpend_ne_none token _ hneL)
    | some o =>
      cases o with
      | none => exact ih hneR hrecvR
      | some t =>
        obtain ⟨hm, hh⟩ := findSpend_some_some token _ t hf
        have hr : t.receiver_pk = s :=
          hrecv t (by rw [allTx_cons, List.mem_append]; exact Or.inl hm) hh
        dsimp only
        rw [if_neg (not_not_intro hr)]
        exact ih hneR hrecvR

theorem checkToken_unique_owner (token : String) (s : List Nat) (t0 : Own.Tx)
    (hhead : t0.coins.head? = some token) :
    ∀ bs : List Own.TBlock,
      (∀ t ∈ Own.allTx bs, t.coins ≠ []) →
      (∀ t ∈ Own.allTx bs, t.coins.head? = some token → t = t0) →
      t0 ∈ Own.allTx bs →
      ∀ found, Own.checkToken token s bs found =
        if t0.receiver_pk = s then some (.ok ())
        else some (.error (.IncompleteChain token)) := by
  intro bs
  induction bs with
  | nil => intro _ _ hmem; simp [Own.allTx] at hmem
  | cons b bs ih =>
    intro hne huni hmem found
    have hneL : ∀ t ∈ b.transactions, t.coins ≠ [] := by
      intro t ht; exact hne t (by rw [allTx_cons, List.mem_append]; exact Or.inl ht)
    have hneR : ∀ t ∈ Own.allTx bs, t.coins ≠ [] := by
      intro t ht; exact hne t (by rw [allTx_cons, List.mem_append]; exact Or.inr ht)
    have huniR : ∀ t ∈ Own.allTx bs, t.coins.head? = some token → t = t0 := by
      intro t ht; exact huni t (by rw [allTx_cons, List.mem_append]; exact Or.inr ht)
    simp only [Own.checkToken]
    cases hf : Own.findSpend token b.transactions with
    | none => exact absurd hf (findSpend_ne_none token _ hneL)
    | some o =>
      cases o with
      | some t =>
        obtain ⟨hm, hh⟩ := findSpend_some_some token _ t hf
        have ht0 : t = t0 :=
          huni t (by rw [allTx_cons, List.mem_append]; exact Or.inl hm) hh
        subst ht0
        dsimp only
        by_cases hr : t.receiver_pk = s
        · rw [if_neg (not_not_intro hr), if_pos hr]
          exact checkToken_all_owner token s bs hneR
            (fun u hu hhu => by rw [huniR u hu hhu]; exact hr)
        · rw [if_pos hr, if_neg hr]
      | none =>
        have hnot := findSpend_some_none_forall token b.transactions hf
        have hmemR : t0 ∈ Own.allTx bs := by
          rw [allTx_cons, List.mem_append] at hmem
          rcases hmem with hl | hr
          · exact absurd hhead (hnot t0 hl)
          · exact hr
        exact ih hneR huniR hmemR found

/-- C1: if the chain history contains exactly one transaction `t0` spending
    token `T` (its coin list is `[T]`, it is the only transaction whose coins
    contain `T`, and every recorded transaction has a non-empty coin list,
    keeping the model away from the `coins[0]` panic), then
    `Wallet::check_transaction_tokens` rejects any transaction whose first
    spent coin is `T` but whose sender is not `t0`'s receiver with the
    incomplete-chain error, rejects any transaction whose first spent coin
    appears nowhere in history with the invalid/unknown-token error, and
    accepts a transaction spending exactly `T` whose sender is `t0`'s
    receiver. -/
theorem double_spend_rejection (blocks : List Own.TBlock) (t0 : Own.Tx) (T : String)
    (hmem : t0 ∈ Own.allTx blocks)
    (hcoins : t0.coins = [T])
    (huniq : ∀ t ∈ Own.allTx blocks, T ∈ t.coins → t = t0)
    (hne : ∀ t ∈ Own.allTx blocks, t.coins ≠ []) :
    (∀ (tx : Own.Tx) (rest : List String), tx.coins = T :: rest →
        tx.sender_pk ≠ t0.receiver_pk →
        Own.check_transaction_tokens tx blocks = some (.error (.IncompleteChain T)))
    ∧ (∀ (tx : Own.Tx) (T2 : String) (rest : List String), tx.coins = T2 :: rest →
        (∀ t ∈ Own.allTx blocks, T2 ∉ t.coins) →
        Own.check_transaction_tokens tx blocks = some (.error .InvalidToken))
    ∧ (∀ tx : Own.Tx, tx.coins = [T] → tx.sender_pk = t0.receiver_pk →
        Own.check_transaction_tokens tx blocks = some (.ok ())) := by
  have hhead : t0.coins.head? = some T := by rw [hcoins]; rfl
  have hneR : ∀ t ∈ Own.allTx blocks.reverse, t.coins ≠ [] :=
    fun t ht => hne t ((mem_allTx_reverse t blocks).mp ht)
  have huniR : ∀ t ∈ Own.allTx blocks.reverse, t.coins.head? = some T → t = t0 :=
    fun t ht hth =>
      huniq t ((mem_allTx_reverse t blocks).mp ht)
        (mem_of_head?_eq_some t.coins T hth)
  have hmemR : t0 ∈ Own.allTx blocks.reverse := (mem_allTx_reverse t0 blocks).mpr hmem
  refine ⟨?_, ?_, ?_⟩
  · intro tx rest htx hsne
    simp only [Own.check_transaction_tokens, htx, Own.checkTokensLoop]
    rw [checkToken_unique_owner T tx.sender_pk t0 hhead blocks.reverse
      hneR huniR hmemR false]
    rw [if_neg (fun hre => hsne hre.symm)]
  · intro tx T2 rest htx habsent
    simp only [Own.check_transaction_tokens, htx, Own.checkTokensLoop]
    rw [checkToken_not_found T2 tx.sender_pk blocks.reverse
      (fun t ht => ⟨hneR t ht,
        fun hh => habsent t ((mem_allTx_reverse t blocks).mp ht)
          (mem_of_head?_eq_some t.coins T2 hh)⟩) false]
    rfl
  · intro tx htx hse
    simp only [Own.check_transaction_tokens, htx, Own.checkTokensLoop]
    rw [checkToken_unique_owner T tx.sender_pk t0 hhead blocks.reverse
      hneR huniR hmemR false]
    rw [if_pos hse.symm]

theorem double_spend_rejection_witness :
    Own.check_transaction_tokens ⟨pkC, pkA, ["tok"]⟩ ownBlocks
        = some (.error (.IncompleteChain "tok")) ∧
    Own.check_transaction_tokens ⟨pkC, pkA, ["unknown"]⟩ ownBlocks
        = some (.error .InvalidToken) ∧
    Own.check_transaction_tokens ⟨pkB, pkC, ["tok"]⟩ ownBlocks = some (.ok ()) := by
  have h := double_spend_rejection ownBlocks t0fix "tok" (by decide) (by decide)
    (by decide) (by decide)
  exact ⟨h.1 ⟨pkC, pkA, ["tok"]⟩ [] rfl (by decide),
    h.2.1 ⟨pkC, pkA, ["unknown"]⟩ "unknown" [] rfl (by decide),
    h.2.2 ⟨pkB, pkC, ["tok"]⟩ rfl (by decide)⟩

/-- C10: the ownership check compares each spent token only against the FIRST
    coin (`t.coins[0]`) of every recorded transaction; a transaction spending a
    token `T` that occurs only at position 1 or later in the recorded coin
    lists is rejected with the invalid/unknown-token error, even when some
    recorded spend of `T` has the transaction's sender as its receiver. -/
theorem check_uses_first_coin_only (blocks : List Own.TBlock) (tx : Own.Tx)
    (T : String)
    (hcoins : tx.coins = [T])
    (hne : ∀ t ∈ Own.allTx blocks, t.coins ≠ [])
    (hhead : ∀ t ∈ Own.allTx blocks, t.coins.head? ≠ some T)
    (_hocc : ∃ t ∈ Own.allTx blocks, T ∈ t.coins ∧ t.receiver_pk = tx.sender_pk) :
    Own.check_transaction_tokens tx blocks = some (.error .InvalidToken) := by
  simp only [Own.check_transaction_tokens, hcoins, Own.checkTokensLoop]
  rw [checkToken_not_found T tx.sender_pk blocks.reverse
    (fun t ht => ⟨hne t ((mem_allTx_reverse t blocks).mp ht),
      hhead t ((mem_allTx_reverse t blocks).mp ht)⟩) false]
  rfl

theorem check_uses_first_coin_only_witness :
    Own.check_transaction_tokens ⟨pkB, pkC, ["late"]⟩ laterBlocks
        = some (.error .InvalidToken) :=
  check_uses_first_coin_only laterBlocks ⟨pkB, pkC, ["late"]⟩ "late" rfl
    (by decide) (by decide) (by decide)


theorem isValidUtf8Fuel_ascii :
    ∀ (fuel : Nat) (bytes : List Nat), bytes.length ≤ fuel →
      HashB.isAscii bytes = true → HashB.isValidUtf8Fuel fuel bytes = true := by
  intro fuel
  induction fuel with
  | zero =>
    intro bytes hlen _
    cases bytes with
    | nil => rfl
    | cons b r => simp at hlen
  | succ f ih =>
    intro bytes hlen hascii
    cases bytes with
    | nil => rfl
    | cons b r =>
      simp only [HashB.isAscii, List.all_cons, Bool.and_eq_true] at hascii
      simp only [HashB.isValidUtf8Fuel]
      rw [if_pos (show b ≤ 127 by simpa using hascii.1)]
      exact ih r (by simpa using hlen) hascii.2

theorem isAscii_isValidUtf8 (bytes : List Nat) (h : HashB.isAscii bytes = true) :
    HashB.isValidUtf8 bytes = true :=
  isValidUtf8Fuel_ascii bytes.length bytes le_rfl h

/-- C8 (amended): a `Hash` built through `TryFrom<String>` or `Default` has
    byte length exactly `HASH_SIZE` (64) and ASCII content, and `TryFrom`
    fails with a `HashError` on any other length or non-ASCII content; a
    `Hash` built through `From<Token>` keeps the token's 64 bytes (so its
    length is 64), but its content is only guaranteed ASCII when the token's
    bytes are ASCII — `From<Token>` merely UTF-8-validates them (panicking on
    invalid UTF-8). -/
theorem hash_size_invariant :
    (∀ (s : List Nat) (h : HashB.Hash), HashB.hashTryFromString s = .ok h →
        h.bytes.length = HashB.HASH_SIZE ∧ HashB.isAscii h.bytes = true)
    ∧ (HashB.hashDefault.bytes.length = HashB.HASH_SIZE
        ∧ HashB.isAscii HashB.hashDefault.bytes = true)
    ∧ (∀ (t : HashB.Token) (h : HashB.Hash), HashB.tokenToHash t = some h →
        h.bytes = t.bytes)
    ∧ (∀ t : HashB.Token, HashB.isAscii t.bytes = true →
        HashB.tokenToHash t = some ⟨t.bytes⟩)
    ∧ (∀ s : List Nat, s.length ≠ HashB.HASH_SIZE →
        HashB.hashTryFromString s = .error .WrongSizeHashError)
    ∧ (∀ s : List Nat, s.length = HashB.HASH_SIZE → HashB.isAscii s = false →
        HashB.hashTryFromString s = .error .InvalidHashStringhError) := by
  refine ⟨?_, ⟨by decide, by decide⟩, ?_, ?_, ?_, ?_⟩
  · intro s h heq
    simp only [HashB.hashTryFromString] at heq
    split_ifs at heq with h1 h2
    simp only [Except.ok.injEq] at heq
    subst heq
    exact ⟨by simpa using h1, by simpa using h2⟩
  · intro t h heq
    simp only [HashB.tokenToHash] at heq
    split_ifs at heq
    simp only [Option.some.injEq] at heq
    rw [← heq]
  · intro t ht
    simp only [HashB.tokenToHash]
    rw [if_pos (isAscii_isValidUtf8 t.bytes ht)]
  · intro s hs
    simp only [HashB.hashTryFromString]
    rw [if_pos hs]
  · intro s hs ha
    simp only [HashB.hashTryFromString]
    rw [if_neg (not_not_intro hs), if_pos (by simp [ha])]

theorem hash_size_invariant_witness :
    HashB.hashTryFromString [] = .error .WrongSizeHashError ∧
    HashB.tokenToHash ⟨List.replicate 64 48⟩ = some ⟨List.replicate 64 48⟩ :=
  ⟨hash_size_invariant.2.2.2.2.1 [] (by decide),
   hash_size_invariant.2.2.2.1 ⟨List.replicate 64 48⟩ (by decide)⟩

/-- C8 counterexample to the claim as stated: `badTokenBytes` is a 64-byte
    token of valid UTF-8, so `From<Token>` constructs a `Hash` from it, yet
    the constructed hash's content is not ASCII. -/
theorem hash_from_token_counterexample :
    badTokenBytes.length = 64 ∧
    HashB.tokenToHash ⟨badTokenBytes⟩ = some ⟨badTokenBytes⟩ ∧
    HashB.isAscii badTokenBytes = false :=
  ⟨by decide, by decide, by decide⟩

theorem get?_some_of_lt {α : Type} (l : List α) (i : Nat) (h : i < l.length) :
    ∃ x, l.get? i = some x := by
  cases hg : l.get? i with
  | none => rw [List.get?_eq_none] at hg; omega
  | some x => exact ⟨x, rfl⟩

/-- C9: the entry decoders and the `fields[7]` panic.  `Record::try_from`
    checks only `fields.len() < 7` and then reads `fields[7]`, so an input
    with exactly 7 `;`-separated fields whose earlier fields parse — such as
    `recordPanicInput` — makes it panic with an index-out-of-bounds (the
    model's `none`), for EVERY behaviour of the external base64 and Uuid
    parsers; `Transaction::try_from`, by contrast, never panics on any
    input. -/
theorem record_decode_out_of_bounds :
    (∀ b64 uuidP, Dec.recordTryFrom b64 uuidP recordPanicInput = none)
    ∧ (∀ b64 uuidP s, Dec.transactionTryFrom b64 uuidP s ≠ none) := by
  constructor
  · intro b64 uuidP
    rfl
  · intro b64 uuidP s hcontra
    by_cases hlen : (Dec.splitChar ';' s).length < 7
    · simp only [Dec.transactionTryFrom, Dec.N_TRANSACTION_FIELDS] at hcontra
      rw [if_pos hlen] at hcontra
      simp at hcontra
    · have h7 : 7 ≤ (Dec.splitChar ';' s).length := le_of_not_lt hlen
      obtain ⟨f0, h0⟩ := get?_some_of_lt (Dec.splitChar ';' s) 0 (by omega)
      obtain ⟨f1, h1⟩ := get?_some_of_lt (Dec.splitChar ';' s) 1 (by omega)
      obtain ⟨f2, h2⟩ := get?_some_of_lt (Dec.splitChar ';' s) 2 (by omega)
      obtain ⟨f3, h3⟩ := get?_some_of_lt (Dec.splitChar ';' s) 3 (by omega)
      obtain ⟨f4, h4⟩ := get?_some_of_lt (Dec.splitChar ';' s) 4 (by omega)
      obtain ⟨f5, h5⟩ := get?_some_of_lt (Dec.splitChar ';' s) 5 (by omega)
      obtain ⟨f6, h6⟩ := get?_some_of_lt (Dec.splitChar ';' s) 6 (by omega)
      simp only [Dec.transactionTryFrom, Dec.N_TRANSACTION_FIELDS] at hcontra
      rw [if_neg hlen, h0, h1, h2, h3, h4, h5, h6] at hcontra
      dsimp only at hcontra
      repeat' split at hcontra
      all_goals simp_all

/-- C7: with the wallet's signing and verification (over the idealized
    external signature scheme), verifying a freshly signed entry against the
    signer's public key succeeds; verifying any unsigned entry, against any
    key, fails with the missing-signature error; and any change to a signed
    entry's payload makes verification fail. -/
theorem sign_verify_round_trip :
    (∀ (w : Sig.Wallet) (e : Sig.Entry),
        Sig.Wallet.verify w (Sig.Wallet.sign w e) (some w.key_pair.public_key)
          = .ok ())
    ∧ (∀ (w : Sig.Wallet) (e : Sig.Entry) (k : Option (List Nat)),
        e.signature = none → Sig.Wallet.verify w e k = .error .NoSignatureError)
    ∧ (∀ (w : Sig.Wallet) (e : Sig.Entry) (p2 : List Nat), p2 ≠ e.payload →
        Sig.Wallet.verify w { Sig.Wallet.sign w e with payload := p2 }
            (some w.key_pair.public_key)
          = .error (.VerificationError (Sig.sign_bytes w.key_pair e.payload))) := by
  refine ⟨?_, ?_, ?_⟩
  · intro w e
    simp [Sig.Wallet.verify, Sig.Wallet.sign, Sig.verify_bytes, Sig.sign_bytes]
  · intro w e k h
    simp [Sig.Wallet.verify, h]
  · intro w e p2 hp
    have hne : Sig.sign_bytes w.key_pair e.payload
        ≠ w.key_pair.public_key.length :: (w.key_pair.public_key ++ p2) := by
      intro hEq
      simp only [Sig.sign_bytes, List.cons.injEq] at hEq
      exact hp (List.append_cancel_left hEq.2).symm
    simp only [Sig.Wallet.verify, Sig.Wallet.sign, Sig.verify_bytes]
    rw [if_neg (by simpa using hne)]

theorem sign_verify_round_trip_witness :
    Sig.Wallet.verify ⟨⟨[7]⟩⟩ ⟨[1, 2], none⟩ none = .error .NoSignatureError ∧
    Sig.Wallet.verify ⟨⟨[7]⟩⟩
        { Sig.Wallet.sign ⟨⟨[7]⟩⟩ ⟨[1, 2], none⟩ with payload := [1, 3] }
        (some [7])
      = .error (.VerificationError (Sig.sign_bytes ⟨[7]⟩ [1, 2])) :=
  ⟨sign_verify_round_trip.2.1 ⟨⟨[7]⟩⟩ ⟨[1, 2], none⟩ none rfl,
   sign_verify_round_trip.2.2 ⟨⟨[7]⟩⟩ ⟨[1, 2], none⟩ [1, 3] (by decide)⟩

end HumbleBlockchain
